import Mathlib

/-!
Verification of the birschindustries-com-documentation scraper (main.go).

The repository consists of two near-duplicate Go variants of one linear
pipeline: fetch one HTML page, extract anchor hrefs, filter directory-like
links, and download each surviving target into a local directory.
Variant 1 (lines 1-177 of main.go) downloads raw link names; variant 2
(lines 178-454) sanitizes each name with urlToFilename and uses a larger
extension allow-list.  Both variants are embedded below; machine strings
are modelled as Lean String (a list of characters), restricted to the
ASCII behaviour of the Go string functions involved.
-/

/-- Character class of the Go regexp `[a-z0-9]` (code points 97-122 and
48-57), used by urlToFilename. -/
def isLowerAlnum (c : Char) : Bool :=
  (decide (97 ≤ c.toNat) && decide (c.toNat ≤ 122)) ||
  (decide (48 ≤ c.toNat) && decide (c.toNat ≤ 57))

/-- Models Go strings.ToLower on one character.  Go lowercasing is
Unicode-aware; the model covers the ASCII range, which is the fragment
the pipeline distinguishes (every other character is replaced by an
underscore by the step that follows the lowering). -/
def goToLower (c : Char) : Char :=
  if 65 ≤ c.toNat ∧ c.toNat ≤ 90 then Char.ofNat (c.toNat + 32) else c

/-- Models regexp.MustCompile("[^a-z0-9]+").ReplaceAllString(s, "_"):
each maximal run of characters outside [a-z0-9] becomes one underscore.
The Boolean argument records whether the scanner is inside such a run. -/
def replAux : Bool → List Char → List Char
  | _, [] => []
  | inRun, c :: cs =>
    if isLowerAlnum c then c :: replAux false cs
    else if inRun then replAux true cs
    else '_' :: replAux true cs

/-- Models regexp.MustCompile("_+").ReplaceAllString(s, "_"): each maximal
run of underscores becomes a single underscore. -/
def collapseAux : Bool → List Char → List Char
  | _, [] => []
  | prevU, c :: cs =>
    if c = '_' then
      (if prevU then collapseAux true cs else '_' :: collapseAux true cs)
    else c :: collapseAux false cs

/-- Models strings.CutPrefix(s, "_"): drops one leading underscore when
present. -/
def cutLeadingUnderscore (cs : List Char) : List Char :=
  match cs with
  | c :: rest => if c = '_' then rest else c :: rest
  | [] => []

/-- The normalization core of urlToFilename: lowercase, replace runs of
characters outside [a-z0-9] by one underscore, collapse underscore runs,
drop one leading underscore.  Everything in urlToFilename before the
extension step. -/
def sanCoreList (cs : List Char) : List Char :=
  cutLeadingUnderscore (collapseAux false (replAux false (cs.map goToLower)))

/-- Models filepath.Ext scanning the reversed character list: walk from
the end of the path; stop with "" at a path separator; at the first dot
return the suffix from that dot.  The accumulator carries the characters
already passed, in original order. -/
def goExtAux : List Char → List Char → List Char
  | _, [] => []
  | acc, c :: cs =>
    if c = '/' then []
    else if c = '.' then '.' :: acc
    else goExtAux (c :: acc) cs

/-- Models getFileExtension (filepath.Ext): the suffix beginning at the
final dot in the final path element, or "" when there is none. -/
def getFileExtension (s : String) : String :=
  String.mk (goExtAux [] s.data.reverse)

/-- Embeds urlToFilename (variant 2): lowercase, replace non [a-z0-9]
runs with "_", collapse underscores, trim one leading underscore, and
append ".pdf" unless the extension already equals ".pdf". -/
def urlToFilename (rawURL : String) : String :=
  let safe := String.mk (sanCoreList rawURL.data)
  if getFileExtension safe = ".pdf" then safe else safe ++ ".pdf"

/-- Models strings.HasPrefix(link, "/"). -/
def leadingSlash (s : String) : Bool :=
  match s.data with
  | c :: _ => c == '/'
  | [] => false

/-- Models strings.HasSuffix(link, "/"). -/
def trailingSlash (s : String) : Bool :=
  match s.data.getLast? with
  | some c => c == '/'
  | none => false

/-- Embeds filterFiles (identical in both variants): drop every link that
starts or ends with a slash, keep the rest in order. -/
def filterFiles : List String → List String
  | [] => []
  | link :: rest =>
    if leadingSlash link || trailingSlash link then filterFiles rest
    else link :: filterFiles rest

/-- Models strings.ToLower on a whole string (ASCII fragment). -/
def toLowerStr (s : String) : String := String.mk (s.data.map goToLower)

/-- The allowedExts list of variant 1 downloadFile (note: no ".pdf"). -/
def allowedExtsV1 : List String :=
  [".asc", ".asc-ma1", ".asc-pierov", ".apk", ".bspatch", ".dmg", ".exe",
   ".gz", ".idsig", ".mar", ".txt", ".zip", ".xz", ".doc"]

/-- The allowedExtensions list of variant 2 downloadFile. -/
def allowedExtensionsV2 : List String :=
  [".asc", ".asc-ma1", ".asc-pierov", ".apk", ".bspatch",
   ".dmg", ".exe", ".gz", ".idsig", ".mar",
   ".txt", ".zip", ".xz", ".doc", ".docx", ".pdf",
   ".xls", ".xlsx", ".ppt", ".pptx", ".csv",
   ".jpg", ".jpeg", ".png", ".gif", ".bmp"]

/-- The variant 1 extension gate: lowercased filepath.Ext is a member of
allowedExts. -/
def extAllowedV1 (fileName : String) : Bool :=
  allowedExtsV1.contains (toLowerStr (getFileExtension fileName))

/-- The variant 2 extension gate: lowercased filepath.Ext is a member of
allowedExtensions. -/
def extAllowedV2 (fileName : String) : Bool :=
  allowedExtensionsV2.contains (toLowerStr (getFileExtension fileName))

/-- The node types of golang.org/x/net/html. -/
inductive NodeType where
  | errorNode
  | textNode
  | documentNode
  | elementNode
  | commentNode
  | doctypeNode
  | rawNode
deriving DecidableEq

/-- One html.Attribute: the fields the code inspects (Key, Val). -/
structure HtmlAttr where
  key : String
  val : String
deriving DecidableEq

mutual
/-- One html.Node: Type, Data (the tag name for elements), Attr, and the
chain of children reached through FirstChild. -/
inductive HNode where
  | node (ty : NodeType) (data : String) (attr : List HtmlAttr) (children : HForest)
deriving DecidableEq
/-- A sibling chain of html.Nodes (FirstChild / NextSibling). -/
inductive HForest where
  | nil
  | cons (head : HNode) (tail : HForest)
deriving DecidableEq
end

/-- The attribute loop of extractLinks: the Val of every Attr entry whose
Key is "href", in attribute order. -/
def hrefVals : List HtmlAttr → List String
  | [] => []
  | a :: rest => if a.key = "href" then a.val :: hrefVals rest else hrefVals rest

mutual
/-- The recursive closure of extractLinks: the accumulator models the
captured links slice; an anchor element appends its href values, then
every child is traversed in order. -/
def traverseNode : List String → HNode → List String
  | acc, .node ty data attr children =>
    traverseForest
      (if ty = NodeType.elementNode ∧ data = "a" then acc ++ hrefVals attr else acc)
      children
/-- The child loop of the extractLinks closure. -/
def traverseForest : List String → HForest → List String
  | acc, .nil => acc
  | acc, .cons c cs => traverseForest (traverseNode acc c) cs
end

/-- Embeds extractLinks applied to a non-nil node: start the traversal
with an empty slice. -/
def extractLinks (n : HNode) : List String := traverseNode [] n

/-- The href values contributed by a single node: all href attributes when
the node is an "a" element, nothing otherwise. -/
def anchorHrefs : HNode → List String
  | .node ty data attr _ =>
    if ty = NodeType.elementNode ∧ data = "a" then hrefVals attr else []

mutual
/-- Depth-first (document) order of the nodes of a tree. -/
def preorderNode : HNode → List HNode
  | .node ty data attr children => .node ty data attr children :: preorderForest children
/-- Depth-first order of the nodes of a sibling chain. -/
def preorderForest : HForest → List HNode
  | .nil => []
  | .cons c cs => preorderNode c ++ preorderForest cs
end

/-- Concatenation of the per-node href contributions of a node list. -/
def collectHrefs : List HNode → List String
  | [] => []
  | n :: ns => anchorHrefs n ++ collectHrefs ns

/-- The specification reading of link extraction: visit every node in
document order and emit each href of each anchor element once per
occurrence. -/
def specExtract (n : HNode) : List String := collectHrefs (preorderNode n)

/-- Outcome of the HTTP exchange of fetchHTML, as seen by the code: the
outer Option is http.NewRequest (none = request-construction error); the
response is either a transport error or a status code together with the
result of html.Parse on the body (none = parse error). -/
inductive HttpResp where
  | transportErr
  | response (status : Nat) (parsed : Option HNode)

/-- Embeds fetchHTML: every failure branch (request construction,
transport, status other than 200, parse) logs and returns nil (none);
otherwise the parsed root node is returned. -/
def fetchHTML : Option HttpResp → Option HNode
  | none => none
  | some HttpResp.transportErr => none
  | some (HttpResp.response status parsed) =>
    if status ≠ 200 then none else parsed

/-- Result of running a Go function that may panic. -/
inductive GoExec (α : Type) where
  | panicked
  | value (a : α)
deriving DecidableEq

/-- Embeds the call extractLinks(node) made by main on the result of
fetchHTML: the Go code reads n.Type without a nil check, so a nil
argument (none) dereferences a nil pointer and the process panics. -/
def extractLinksTotal : Option HNode → GoExec (List String)
  | none => GoExec.panicked
  | some n => GoExec.value (extractLinks n)

/-- Result of os.Stat at a path: error (path absent), or an entry whose
IsDir flag is as given. -/
inductive StatResult where
  | statErr
  | found (isDir : Bool)
deriving DecidableEq

/-- Embeds fileExists: false on a Stat error, otherwise !IsDir. -/
def fileExists : StatResult → Bool
  | StatResult.statErr => false
  | StatResult.found isDir => !isDir

/-- Embeds directoryExists (variant 2): false on a Stat error, otherwise
IsDir. -/
def directoryExists : StatResult → Bool
  | StatResult.statErr => false
  | StatResult.found isDir => isDir

/-- The filesystem and network behaviour surrounding one downloadFile
call: the Stat result at the local path, and whether http.Get,
os.MkdirAll (variant 1 only), os.Create and io.Copy fail. -/
structure DlWorld where
  stat : StatResult
  httpGetErr : Bool
  mkdirErr : Bool
  createErr : Bool
  copyErr : Bool
deriving DecidableEq

/-- The error values downloadFile can return, each carrying the path the
Go format string embeds. -/
inductive DlError where
  | downloadFailed (url : String)
  | mkdirFailed (dir : String)
  | createFailed (path : String)
  | saveFailed (path : String)
deriving DecidableEq

/-- The path or URL carried inside a downloadFile error message. -/
def errPath : DlError → String
  | DlError.downloadFailed u => u
  | DlError.mkdirFailed d => d
  | DlError.createFailed p => p
  | DlError.saveFailed p => p

/-- Observable result of one downloadFile call: the returned error (none
models a nil error), whether http.Get was reached, and whether a
filesystem write (MkdirAll or Create) was attempted. -/
structure DlResult where
  err : Option DlError
  networkCalled : Bool
  fsWriteAttempted : Bool
deriving DecidableEq

/-- Models filepath.Join(dir, name) for the names this pipeline builds:
one separator between the parts, and Clean is the identity on such
inputs. -/
def joinPath (dir name : String) : String :=
  if trailingSlash dir then dir ++ name else dir ++ "/" ++ name

/-- Embeds downloadFile of variant 1 (lines 83-137): extension gate with
allowedExts, existence gate, http.Get, os.MkdirAll, os.Create, io.Copy,
in that order, returning nil on both gates and on full success. -/
def downloadFileV1 (baseURL fileName outDir : String) (w : DlWorld) : DlResult :=
  if !extAllowedV1 fileName then ⟨none, false, false⟩
  else if fileExists w.stat then ⟨none, false, false⟩
  else if w.httpGetErr then ⟨some (DlError.downloadFailed (baseURL ++ fileName)), true, false⟩
  else if w.mkdirErr then ⟨some (DlError.mkdirFailed outDir), true, true⟩
  else if w.createErr then ⟨some (DlError.createFailed (joinPath outDir fileName)), true, true⟩
  else if w.copyErr then ⟨some (DlError.saveFailed (joinPath outDir fileName)), true, true⟩
  else ⟨none, true, true⟩

/-- Embeds downloadFile of variant 2 (lines 354-419): extension gate with
allowedExtensions, existence gate, http.Get, os.Create, io.Copy, in that
order (no MkdirAll in this variant). -/
def downloadFileV2 (baseURL fileName outputDirectory : String) (w : DlWorld) : DlResult :=
  if !extAllowedV2 fileName then ⟨none, false, false⟩
  else if fileExists w.stat then ⟨none, false, false⟩
  else if w.httpGetErr then ⟨some (DlError.downloadFailed (baseURL ++ fileName)), true, false⟩
  else if w.createErr then ⟨some (DlError.createFailed (joinPath outputDirectory fileName)), true, true⟩
  else if w.copyErr then ⟨some (DlError.saveFailed (joinPath outputDirectory fileName)), true, true⟩
  else ⟨none, true, true⟩

/-- The baseURL constant of both mains. -/
def mainBaseURL : String := "https://www.birschindustries.com/MSDS%20Sheets/"

/-- The remoteFolder constant of both mains. -/
def mainOutDir : String := "Assets/"

/-- The download loop of variant 1 main: each filtered file name is passed
to downloadFile unchanged; a non-nil error is printed to stderr and the
loop continues with the next file. -/
def mainLoopV1 (w : String → DlWorld) : List String → List (String × DlResult)
  | [] => []
  | file :: rest =>
    (file, downloadFileV1 mainBaseURL file mainOutDir (w file)) :: mainLoopV1 w rest

/-- The download loop of variant 2 main (lines 444-453): each filtered
link is sanitized with urlToFilename before the downloadFile call; a
non-nil error is printed to stderr and the loop continues. -/
def mainLoopV2 (w : String → DlWorld) : List String → List (String × DlResult)
  | [] => []
  | url :: rest =>
    (url, downloadFileV2 mainBaseURL (urlToFilename url) mainOutDir (w url)) :: mainLoopV2 w rest

/-- Whether the directory-creation step lets the process continue. -/
inductive DirStepResult where
  | exited
  | continued
deriving DecidableEq

/-- Embeds createDirectory (variant 2, lines 315-320): on an os.Mkdir
error the function only calls log.Println and returns — it never exits,
although its own Go doc comment says it logs the error and then exits
the program. -/
def createDirectory : Bool → DirStepResult
  | true => DirStepResult.continued
  | false => DirStepResult.continued

/-- Outcome of the tail of main after link filtering. -/
inductive ProcOutcome where
  | fatalExit
  | completed (results : List (String × DlResult))
deriving DecidableEq

/-- Embeds the tail of variant 1 main (lines 162-176): os.MkdirAll, then
log.Fatalln on error (process terminates before any download), otherwise
the download loop over the filtered files. -/
def mainTailV1 (mkdirAllErr : Bool) (w : String → DlWorld) (files : List String) : ProcOutcome :=
  if mkdirAllErr then ProcOutcome.fatalExit
  else ProcOutcome.completed (mainLoopV1 w files)

/-- Embeds the tail of variant 2 main (lines 438-453): when Assets/ does
not yet exist, createDirectory is called; whatever it does, control then
reaches the download loop. -/
def mainTailV2 (assetsStat : StatResult) (mkdirErr : Bool) (w : String → DlWorld)
    (links : List String) : ProcOutcome :=
  match (if directoryExists assetsStat then DirStepResult.continued
         else createDirectory mkdirErr) with
  | DirStepResult.exited => ProcOutcome.fatalExit
  | DirStepResult.continued => ProcOutcome.completed (mainLoopV2 w links)

/-- A character the sanitizer core can output: lowercase alphanumeric or
underscore. -/
def goodChar (c : Char) : Bool := isLowerAlnum c || c == '_'

/-- Every character of the list is a goodChar. -/
def goodList : List Char → Bool
  | [] => true
  | c :: cs => goodChar c && goodList cs

/-- The list does not start with an underscore. -/
def noLeadUnd : List Char → Bool
  | [] => true
  | c :: _ => !(c == '_')

/-- No two adjacent underscores anywhere in the list. -/
def noDouble : List Char → Bool
  | [] => true
  | c :: cs => (if c = '_' then noLeadUnd cs else true) && noDouble cs

/-- Whether the list contains two consecutive dots (a ".." segment). -/
def hasDotDot : List Char → Bool
  | c :: d :: rest => (c == '.' && d == '.') || hasDotDot (d :: rest)
  | _ => false

/-- A plain anchor element with one href attribute. -/
def aTag (href : String) : HNode :=
  HNode.node NodeType.elementNode "a" [⟨"href", href⟩] HForest.nil

/-- The document of spec testable property 2: one top-level anchor, and a
second anchor nested inside a non-anchor div wrapper. -/
def exampleDoc : HNode :=
  HNode.node NodeType.documentNode "" []
    (HForest.cons (HNode.node NodeType.elementNode "html" []
      (HForest.cons (HNode.node NodeType.elementNode "body" []
        (HForest.cons (aTag "x.pdf")
          (HForest.cons
            (HNode.node NodeType.elementNode "div" []
              (HForest.cons (aTag "/skip/") HForest.nil))
            HForest.nil)))
        HForest.nil))
      HForest.nil)

/-- An anchor element carrying two href attributes with another attribute
between them. -/
def multiHrefAnchor : HNode :=
  HNode.node NodeType.elementNode "a"
    [⟨"href", "h1.pdf"⟩, ⟨"rel", "x"⟩, ⟨"href", "h2.pdf"⟩] HForest.nil

/-- A quiet world: the local path is absent and no operation fails. -/
def wDefault : DlWorld := ⟨StatResult.statErr, false, false, false, false⟩

/-- A world where http.Get fails and nothing else does. -/
def wHttpFail : DlWorld := ⟨StatResult.statErr, true, false, false, false⟩

/-- A world where a directory occupies the local path, the GET succeeds,
and os.Create on the directory path fails. -/
def wDirAtPath : DlWorld := ⟨StatResult.found true, false, false, true, false⟩

/-! Helper lemmas about the sanitizer core. -/

theorem isLowerAlnum_ne_und {c : Char} (h : isLowerAlnum c = true) : ¬ (c = '_') := by
  intro hc
  subst hc
  simp [isLowerAlnum] at h

theorem repl_good : ∀ (cs : List Char) (b : Bool), goodList (replAux b cs) = true := by
  intro cs
  induction cs with
  | nil => intro b; rfl
  | cons c cs ih =>
    intro b
    by_cases h : isLowerAlnum c = true
    · simp [replAux, h, goodList, goodChar, ih]
    · cases b <;> simp [replAux, h, goodList, goodChar, ih]

theorem repl_noLead_true : ∀ (cs : List Char), noLeadUnd (replAux true cs) = true := by
  intro cs
  induction cs with
  | nil => rfl
  | cons c cs ih =>
    by_cases h : isLowerAlnum c = true
    · have := isLowerAlnum_ne_und h
      simp [replAux, h, noLeadUnd, this]
    · simp [replAux, h, ih]

theorem repl_noDouble : ∀ (cs : List Char) (b : Bool), noDouble (replAux b cs) = true := by
  intro cs
  induction cs with
  | nil => intro b; rfl
  | cons c cs ih =>
    intro b
    by_cases h : isLowerAlnum c = true
    · have hne := isLowerAlnum_ne_und h
      simp [replAux, h, noDouble, hne, ih]
    · cases b with
      | true => simp [replAux, h, ih]
      | false => simp [replAux, h, noDouble, repl_noLead_true, ih]

theorem replAux_id : ∀ (cs : List Char) (b : Bool),
    goodList cs = true → noDouble cs = true → (b = true → noLeadUnd cs = true) →
    replAux b cs = cs := by
  intro cs
  induction cs with
  | nil => intro b _ _ _; rfl
  | cons c cs ih =>
    intro b hg hd hl
    have hgc : goodChar c = true := by
      simp [goodList, Bool.and_eq_true] at hg; exact hg.1
    have hgs : goodList cs = true := by
      simp [goodList, Bool.and_eq_true] at hg; exact hg.2
    have hds : noDouble cs = true := by
      simp [noDouble] at hd; exact hd.2
    by_cases h : isLowerAlnum c = true
    · simp [replAux, h]
      exact ih false hgs hds (by simp)
    · have hc : c = '_' := by
        simp [goodChar, h] at hgc; exact hgc
      subst hc
      cases b with
      | true => simp [noLeadUnd] at hl
      | false =>
        have hlu : noLeadUnd cs = true := by
          simp [noDouble] at hd; exact hd.1
        simp [replAux, h]
        exact ih true hgs hds (fun _ => hlu)

theorem collapseAux_id : ∀ (cs : List Char) (b : Bool),
    noDouble cs = true → (b = true → noLeadUnd cs = true) →
    collapseAux b cs = cs := by
  intro cs
  induction cs with
  | nil => intro b _ _; rfl
  | cons c cs ih =>
    intro b hd hl
    have hds : noDouble cs = true := by
      simp [noDouble] at hd; exact hd.2
    by_cases hc : c = '_'
    · subst hc
      have hlu : noLeadUnd cs = true := by
        simp [noDouble] at hd; exact hd.1
      cases b with
      | true => simp [noLeadUnd] at hl
      | false =>
        simp [collapseAux]
        exact ih true hds (fun _ => hlu)
    · cases b with
      | true => simp [collapseAux, hc]; exact ih false hds (by simp)
      | false => simp [collapseAux, hc]; exact ih false hds (by simp)

theorem cut_good {cs : List Char} (h : goodList cs = true) :
    goodList (cutLeadingUnderscore cs) = true := by
  cases cs with
  | nil => rfl
  | cons c rest =>
    by_cases hc : c = '_' <;>
      simp [cutLeadingUnderscore, hc, goodList, Bool.and_eq_true] at h ⊢ <;> tauto

theorem cut_noDouble {cs : List Char} (h : noDouble cs = true) :
    noDouble (cutLeadingUnderscore cs) = true := by
  cases cs with
  | nil => rfl
  | cons c rest =>
    by_cases hc : c = '_' <;> simp [cutLeadingUnderscore, hc, noDouble] at h ⊢ <;> tauto

theorem cut_noLead {cs : List Char} (h : noDouble cs = true) :
    noLeadUnd (cutLeadingUnderscore cs) = true := by
  cases cs with
  | nil => rfl
  | cons c rest =>
    by_cases hc : c = '_'
    · subst hc; simp [cutLeadingUnderscore, noDouble] at h ⊢; exact h.1
    · simp [cutLeadingUnderscore, hc, noLeadUnd]

theorem cut_id {cs : List Char} (h : noLeadUnd cs = true) :
    cutLeadingUnderscore cs = cs := by
  cases cs with
  | nil => rfl
  | cons c rest =>
    simp [noLeadUnd] at h
    simp [cutLeadingUnderscore, h]

theorem goToLower_good {c : Char} (h : goodChar c = true) : goToLower c = c := by
  simp [goodChar, isLowerAlnum, Bool.or_eq_true, Bool.and_eq_true] at h
  rcases h with (⟨h1, h2⟩ | ⟨h1, h2⟩) | h
  · simp [goToLower]; omega
  · simp [goToLower]; omega
  · subst h; decide

theorem goodList_map_lower {cs : List Char} (h : goodList cs = true) :
    cs.map goToLower = cs := by
  induction cs with
  | nil => rfl
  | cons c rest ih =>
    simp [goodList, Bool.and_eq_true] at h
    simp [goToLower_good h.1, ih h.2]

theorem sanCore_good (cs : List Char) : goodList (sanCoreList cs) = true := by
  unfold sanCoreList
  rw [collapseAux_id _ false (repl_noDouble _ false) (by simp)]
  exact cut_good (repl_good _ false)

theorem sanCore_noDouble (cs : List Char) : noDouble (sanCoreList cs) = true := by
  unfold sanCoreList
  rw [collapseAux_id _ false (repl_noDouble _ false) (by simp)]
  exact cut_noDouble (repl_noDouble _ false)

theorem sanCore_noLead (cs : List Char) : noLeadUnd (sanCoreList cs) = true := by
  unfold sanCoreList
  rw [collapseAux_id _ false (repl_noDouble _ false) (by simp)]
  exact cut_noLead (repl_noDouble _ false)

theorem sanCore_fix {t : List Char} (hg : goodList t = true) (hd : noDouble t = true)
    (hl : noLeadUnd t = true) : sanCoreList t = t := by
  unfold sanCoreList
  rw [goodList_map_lower hg, replAux_id _ false hg hd (by simp),
    collapseAux_id _ false hd (by simp)]
  exact cut_id hl

theorem sanCore_idem (cs : List Char) : sanCoreList (sanCoreList cs) = sanCoreList cs :=
  sanCore_fix (sanCore_good cs) (sanCore_noDouble cs) (sanCore_noLead cs)

theorem goodChar_ne_dot_slash {c : Char} (h : goodChar c = true) :
    ¬ c = '.' ∧ ¬ c = '/' := by
  simp [goodChar, isLowerAlnum, Bool.or_eq_true, Bool.and_eq_true] at h
  constructor <;> intro hc <;> subst hc <;> revert h <;> decide

theorem goExtAux_no_dot : ∀ (cs acc : List Char),
    (∀ c ∈ cs, ¬ c = '.' ∧ ¬ c = '/') → goExtAux acc cs = [] := by
  intro cs
  induction cs with
  | nil => intro acc _; rfl
  | cons c rest ih =>
    intro acc h
    have hc := h c (by simp)
    simp [goExtAux, hc.1, hc.2]
    exact ih _ (fun x hx => h x (by simp [hx]))

theorem goodList_mem {cs : List Char} (h : goodList cs = true) :
    ∀ c ∈ cs, goodChar c = true := by
  induction cs with
  | nil => simp
  | cons c rest ih =>
    simp [goodList, Bool.and_eq_true] at h
    intro x hx
    rcases List.mem_cons.mp hx with rfl | hx
    · exact h.1
    · exact ih h.2 x hx

theorem getFileExtension_core (cs : List Char) :
    getFileExtension (String.mk (sanCoreList cs)) = "" := by
  unfold getFileExtension
  have hg := sanCore_good cs
  have : goExtAux [] (sanCoreList cs).reverse = [] := by
    refine goExtAux_no_dot _ _ (fun c hc => ?_)
    exact goodChar_ne_dot_slash (goodList_mem hg c (List.mem_reverse.mp hc))
  simp [this]

theorem urlToFilename_eq (s : String) :
    urlToFilename s = String.mk (sanCoreList s.data) ++ ".pdf" := by
  simp only [urlToFilename]
  rw [getFileExtension_core]
  rw [if_neg (by decide)]

theorem urlToFilename_data (s : String) :
    (urlToFilename s).data = sanCoreList s.data ++ ('.' :: 'p' :: 'd' :: 'f' :: []) := by
  rw [urlToFilename_eq]
  rfl

theorem goExtAux_pdf (rest : List Char) :
    goExtAux [] ('f' :: 'd' :: 'p' :: '.' :: rest) = ('.' :: 'p' :: 'd' :: 'f' :: []) := rfl

theorem getFileExtension_result (s : String) :
    getFileExtension (urlToFilename s) = ".pdf" := by
  unfold getFileExtension
  rw [urlToFilename_data]
  rw [List.reverse_append]
  show String.mk (goExtAux [] ('f' :: 'd' :: 'p' :: '.' :: (sanCoreList s.data).reverse)) = ".pdf"
  rw [goExtAux_pdf]

theorem extAllowedV2_result (s : String) : extAllowedV2 (urlToFilename s) = true := by
  unfold extAllowedV2
  rw [getFileExtension_result]
  decide

theorem result_no_slash (s : String) : (urlToFilename s).data.contains '/' = false := by
  rw [urlToFilename_data]
  rw [List.contains_eq_any_beq]
  simp only [List.any_append, Bool.or_eq_false_iff]
  constructor
  · rw [List.any_eq_false]
    intro c hc
    have := goodChar_ne_dot_slash (goodList_mem (sanCore_good s.data) c hc)
    simp [beq_iff_eq]
    intro h
    exact this.2 h.symm
  · decide

theorem hasDotDot_stem : ∀ (stem : List Char),
    (∀ c ∈ stem, ¬ c = '.') →
    hasDotDot (stem ++ ('.' :: 'p' :: 'd' :: 'f' :: [])) = false := by
  intro stem
  induction stem with
  | nil => intro _; decide
  | cons c rest ih =>
    intro h
    have hc : ¬ c = '.' := h c (by simp)
    have hrest := ih (fun x hx => h x (by simp [hx]))
    cases hr : rest ++ ('.' :: 'p' :: 'd' :: 'f' :: []) with
    | nil => simp at hr
    | cons d ds =>
      rw [hr] at hrest
      rw [show c :: rest ++ ('.' :: 'p' :: 'd' :: 'f' :: []) = c :: d :: ds from by
        rw [List.cons_append, hr]]
      have hcb : (c == '.') = false := by
        simp only [beq_eq_false_iff_ne]; exact hc
      simp [hasDotDot, hcb, hrest]

theorem result_no_dotdot (s : String) : hasDotDot (urlToFilename s).data = false := by
  rw [urlToFilename_data]
  exact hasDotDot_stem _ (fun c hc =>
    (goodChar_ne_dot_slash (goodList_mem (sanCore_good s.data) c hc)).1)

/-! Helper lemmas about link extraction. -/

theorem collectHrefs_append (xs ys : List HNode) :
    collectHrefs (xs ++ ys) = collectHrefs xs ++ collectHrefs ys := by
  induction xs with
  | nil => simp [collectHrefs]
  | cons n ns ih => simp [collectHrefs, ih]

mutual
theorem traverseNode_spec : ∀ (n : HNode) (acc : List String),
    traverseNode acc n = acc ++ specExtract n
  | HNode.node ty data attr children, acc => by
    have hf := traverseForest_spec children
    by_cases h : ty = NodeType.elementNode ∧ data = "a" <;>
      simp [traverseNode, specExtract, preorderNode, collectHrefs, anchorHrefs, h, hf]
theorem traverseForest_spec : ∀ (f : HForest) (acc : List String),
    traverseForest acc f = acc ++ collectHrefs (preorderForest f)
  | HForest.nil, acc => by simp [traverseForest, preorderForest, collectHrefs]
  | HForest.cons c cs, acc => by
    have hn := traverseNode_spec c
    have hf := traverseForest_spec cs
    simp [traverseForest, preorderForest, collectHrefs_append, hn, hf, specExtract]
end

/-! Helper lemmas about filterFiles and downloadFile. -/

theorem filterFiles_eq_filter (links : List String) :
    filterFiles links = links.filter (fun l => !(leadingSlash l || trailingSlash l)) := by
  induction links with
  | nil => rfl
  | cons link rest ih =>
    by_cases h : (leadingSlash link || trailingSlash link) = true <;>
      simp [filterFiles, h, List.filter, ih]

theorem dl_err_path_v2 (b n d : String) (w : DlWorld) (e : DlError)
    (herr : (downloadFileV2 b n d w).err = some e) :
    errPath e = b ++ n ∨ errPath e = joinPath d n := by
  by_cases h1 : extAllowedV2 n = true
  · by_cases hf : fileExists w.stat = true
    · simp [downloadFileV2, h1, hf] at herr
    · by_cases hg : w.httpGetErr = true
      · simp [downloadFileV2, h1, hf, hg] at herr
        subst herr; left; rfl
      · by_cases hc : w.createErr = true
        · simp [downloadFileV2, h1, hf, hg, hc] at herr
          subst herr; right; rfl
        · by_cases hcp : w.copyErr = true
          · simp [downloadFileV2, h1, hf, hg, hc, hcp] at herr
            subst herr; right; rfl
          · simp [downloadFileV2, h1, hf, hg, hc, hcp] at herr
  · simp [downloadFileV2, h1] at herr

theorem dl_err_path_v1 (b n d : String) (w : DlWorld) (e : DlError)
    (herr : (downloadFileV1 b n d w).err = some e) :
    errPath e = b ++ n ∨ errPath e = d ∨ errPath e = joinPath d n := by
  by_cases h1 : extAllowedV1 n = true
  · by_cases hf : fileExists w.stat = true
    · simp [downloadFileV1, h1, hf] at herr
    · by_cases hg : w.httpGetErr = true
      · simp [downloadFileV1, h1, hf, hg] at herr
        subst herr; left; rfl
      · by_cases hm : w.mkdirErr = true
        · simp [downloadFileV1, h1, hf, hg, hm] at herr
          subst herr; right; left; rfl
        · by_cases hc : w.createErr = true
          · simp [downloadFileV1, h1, hf, hg, hm, hc] at herr
            subst herr; right; right; rfl
          · by_cases hcp : w.copyErr = true
            · simp [downloadFileV1, h1, hf, hg, hm, hc, hcp] at herr
              subst herr; right; right; rfl
            · simp [downloadFileV1, h1, hf, hg, hm, hc, hcp] at herr
  · simp [downloadFileV1, h1] at herr

theorem mainLoopV2_fst (w : String → DlWorld) (links : List String) :
    (mainLoopV2 w links).map Prod.fst = links := by
  induction links with
  | nil => rfl
  | cons url rest ih => simp [mainLoopV2, ih]

theorem mainLoopV1_fst (w : String → DlWorld) (links : List String) :
    (mainLoopV1 w links).map Prod.fst = links := by
  induction links with
  | nil => rfl
  | cons f rest ih => simp [mainLoopV1, ih]

theorem mainLoopV2_mem (w : String → DlWorld) (links : List String) (url : String)
    (r : DlResult) (hmem : (url, r) ∈ mainLoopV2 w links) :
    r = downloadFileV2 mainBaseURL (urlToFilename url) mainOutDir (w url) := by
  induction links with
  | nil => simp [mainLoopV2] at hmem
  | cons u rest ih =>
    simp only [mainLoopV2, List.mem_cons] at hmem
    rcases hmem with h | h
    · obtain ⟨h1, h2⟩ := Prod.mk.injEq .. ▸ h
      subst h1; exact h2.symm ▸ rfl
    · exact ih h

theorem mainLoopV1_mem (w : String → DlWorld) (links : List String) (f : String)
    (r : DlResult) (hmem : (f, r) ∈ mainLoopV1 w links) :
    r = downloadFileV1 mainBaseURL f mainOutDir (w f) := by
  induction links with
  | nil => simp [mainLoopV1] at hmem
  | cons u rest ih =>
    simp only [mainLoopV1, List.mem_cons] at hmem
    rcases hmem with h | h
    · obtain ⟨h1, h2⟩ := Prod.mk.injEq .. ▸ h
      subst h1; exact h2.symm ▸ rfl
    · exact ih h

/-! The claims. -/

/-- C1 counterexample: the sanitizer is not idempotent.  Re-sanitizing
"sheet_a_b_1.pdf" does not return it unchanged (the dot is replaced by an
underscore before the extension check, so ".pdf" is appended again), and
sanitize("Sheet A/B (1).PDF") is "sheet_a_b_1_pdf.pdf", not the
"sheet_a_b_1.pdf" the claim states. -/
theorem urlToFilename_not_idempotent :
    (urlToFilename (urlToFilename "Sheet A/B (1).PDF") ==
      urlToFilename "Sheet A/B (1).PDF") = false ∧
    (urlToFilename "Sheet A/B (1).PDF" == "sheet_a_b_1.pdf") = false ∧
    (urlToFilename "sheet_a_b_1.pdf" == "sheet_a_b_1.pdf") = false ∧
    urlToFilename "sheet_a_b_1.pdf" = "sheet_a_b_1_pdf.pdf" := by
  decide

/-- C1 amended: urlToFilename always appends ".pdf" to its normalization
core (the extension check never fires, because every dot has been
replaced by an underscore), the core itself is idempotent, and the two
example inputs map to "sheet_a_b_1_pdf.pdf" and on re-sanitization to
"sheet_a_b_1_pdf_pdf.pdf". -/
theorem urlToFilename_core_idem_pdf_appended :
    (∀ s : String, urlToFilename s = String.mk (sanCoreList s.data) ++ ".pdf" ∧
      sanCoreList (sanCoreList s.data) = sanCoreList s.data) ∧
    urlToFilename "Sheet A/B (1).PDF" = "sheet_a_b_1_pdf.pdf" ∧
    urlToFilename "sheet_a_b_1_pdf.pdf" = "sheet_a_b_1_pdf_pdf.pdf" :=
  ⟨fun s => ⟨urlToFilename_eq s, sanCore_idem s.data⟩, by decide, by decide⟩

/-- C2: on every page-fetch failure (request construction, transport,
non-200 status, parse) fetchHTML returns nil; main then calls
extractLinks on that nil node, which dereferences it and panics instead
of producing an empty link list. -/
theorem fetch_failure_dereferences_nil :
    fetchHTML none = none ∧
    fetchHTML (some HttpResp.transportErr) = none ∧
    fetchHTML (some (HttpResp.response 404 (some exampleDoc))) = none ∧
    fetchHTML (some (HttpResp.response 200 none)) = none ∧
    extractLinksTotal (fetchHTML (some (HttpResp.response 404 (some exampleDoc)))) =
      GoExec.panicked ∧
    (extractLinksTotal (fetchHTML (some (HttpResp.response 404 (some exampleDoc)))) ==
      GoExec.value ([] : List String)) = false := by
  decide

/-- C3: in variant 1 a MkdirAll failure is fatal before any download, but
in variant 2 createDirectory only logs the Mkdir error and continues, so
with Assets/ absent and Mkdir failing the pipeline still runs its
download loop (here downloading "a.pdf" successfully) instead of
terminating. -/
theorem dir_creation_fatal_only_in_v1 :
    (∀ (w : String → DlWorld) (files : List String),
      mainTailV1 true w files = ProcOutcome.fatalExit) ∧
    createDirectory true = DirStepResult.continued ∧
    mainTailV2 StatResult.statErr true (fun _ => wDefault) ["a.pdf"] =
      ProcOutcome.completed [("a.pdf", ⟨none, true, true⟩)] :=
  ⟨fun _ _ => rfl, rfl, by decide⟩

/-- C4 counterexample: in variant 1 the allow-list has no ".pdf" entry, so
download of "file.pdf" does not proceed past the extension check: it is a
no-op (nil error) with no network call. -/
theorem v1_pdf_not_allowed :
    extAllowedV1 "file.pdf" = false ∧
    downloadFileV1 mainBaseURL "file.pdf" mainOutDir wDefault = ⟨none, false, false⟩ := by
  decide

/-- C4 amended: with no file at the local path, variant 2 proceeds past
the extension check for "file.exe" and "file.pdf" and no-ops on
"file.html" with no network call; variant 1 proceeds only for "file.exe"
and no-ops (nil error, no network call) on both "file.pdf" and
"file.html". -/
theorem extension_gate_by_variant (b d : String) (w : DlWorld)
    (hf : fileExists w.stat = false) :
    (downloadFileV1 b "file.exe" d w).networkCalled = true ∧
    downloadFileV1 b "file.pdf" d w = ⟨none, false, false⟩ ∧
    downloadFileV1 b "file.html" d w = ⟨none, false, false⟩ ∧
    (downloadFileV2 b "file.exe" d w).networkCalled = true ∧
    (downloadFileV2 b "file.pdf" d w).networkCalled = true ∧
    downloadFileV2 b "file.html" d w = ⟨none, false, false⟩ := by
  obtain ⟨st, hget, hmk, hcr, hcp⟩ := w
  simp only [DlWorld.stat] at hf
  cases hget <;> cases hmk <;> cases hcr <;> cases hcp <;>
    simp [downloadFileV1, downloadFileV2, hf,
      show extAllowedV1 "file.exe" = true from by decide,
      show extAllowedV1 "file.pdf" = false from by decide,
      show extAllowedV1 "file.html" = false from by decide,
      show extAllowedV2 "file.exe" = true from by decide,
      show extAllowedV2 "file.pdf" = true from by decide,
      show extAllowedV2 "file.html" = false from by decide]

/-- C4 amended witness at the quiet world. -/
theorem extension_gate_by_variant_witness :
    fileExists wDefault.stat = false ∧
    ((downloadFileV1 mainBaseURL "file.exe" mainOutDir wDefault).networkCalled = true ∧
    downloadFileV1 mainBaseURL "file.pdf" mainOutDir wDefault = ⟨none, false, false⟩ ∧
    downloadFileV1 mainBaseURL "file.html" mainOutDir wDefault = ⟨none, false, false⟩ ∧
    (downloadFileV2 mainBaseURL "file.exe" mainOutDir wDefault).networkCalled = true ∧
    (downloadFileV2 mainBaseURL "file.pdf" mainOutDir wDefault).networkCalled = true ∧
    downloadFileV2 mainBaseURL "file.html" mainOutDir wDefault = ⟨none, false, false⟩) :=
  ⟨by decide, extension_gate_by_variant mainBaseURL mainOutDir wDefault (by decide)⟩

/-- C5: a link survives filterFiles iff it occurs in the input and neither
starts nor ends with a slash; the output is exactly List.filter with that
predicate (order and duplicates preserved); and the spec example filters
as stated. -/
theorem filterFiles_correct :
    (∀ (links : List String) (x : String),
      x ∈ filterFiles links ↔
        x ∈ links ∧ leadingSlash x = false ∧ trailingSlash x = false) ∧
    (∀ links : List String,
      filterFiles links = links.filter (fun l => !(leadingSlash l || trailingSlash l))) ∧
    filterFiles ["a.pdf", "/b.pdf", "dir/", "c.PDF"] = ["a.pdf", "c.PDF"] := by
  refine ⟨fun links x => ?_, filterFiles_eq_filter, by decide⟩
  rw [filterFiles_eq_filter, List.mem_filter]
  simp [Bool.or_eq_false_iff, and_assoc]

/-- C6: a directory at the computed local path is not "already
downloaded": fileExists is false there, so the download proceeds (network
reached) and a failing os.Create surfaces as a per-file createFailed
error carrying the local path — a Failure, not a no-op. -/
theorem directory_at_path_not_skipped (b n d : String) (w : DlWorld)
    (hext : extAllowedV2 n = true) (hstat : w.stat = StatResult.found true)
    (hget : w.httpGetErr = false) (hcr : w.createErr = true) :
    fileExists w.stat = false ∧
    downloadFileV2 b n d w =
      ⟨some (DlError.createFailed (joinPath d n)), true, true⟩ := by
  have hfe : fileExists w.stat = false := by rw [hstat]; rfl
  exact ⟨hfe, by simp [downloadFileV2, hext, hfe, hget, hcr]⟩

/-- C6 witness: a directory sits at Assets/file.pdf. -/
theorem directory_at_path_not_skipped_witness :
    (extAllowedV2 "file.pdf" = true ∧
      wDirAtPath.stat = StatResult.found true ∧
      wDirAtPath.httpGetErr = false ∧ wDirAtPath.createErr = true) ∧
    fileExists wDirAtPath.stat = false ∧
    downloadFileV2 mainBaseURL "file.pdf" mainOutDir wDirAtPath =
      ⟨some (DlError.createFailed (joinPath mainOutDir "file.pdf")), true, true⟩ :=
  ⟨⟨by decide, rfl, rfl, rfl⟩,
   directory_at_path_not_skipped mainBaseURL "file.pdf" mainOutDir wDirAtPath
     (by decide) rfl rfl rfl⟩

/-- C7: extractLinks equals the document-order specification (every node
visited depth-first, each anchor emitting each href once per occurrence),
and on the example documents it returns the nested href and both hrefs of
a double-href anchor in order. -/
theorem extractLinks_document_order :
    (∀ n : HNode, extractLinks n = specExtract n) ∧
    extractLinks exampleDoc = ["x.pdf", "/skip/"] ∧
    extractLinks multiHrefAnchor = ["h1.pdf", "h2.pdf"] :=
  ⟨fun n => by simpa [extractLinks] using traverseNode_spec n [], by decide, by decide⟩

/-- C8: both download loops process every link (the processed names are
exactly the input list, in order, whatever errors occur), and every
returned error carries the offending URL or local path. -/
theorem download_loop_continues_after_failure :
    ∀ (w : String → DlWorld) (links : List String),
    (mainLoopV2 w links).map Prod.fst = links ∧
    (mainLoopV1 w links).map Prod.fst = links ∧
    (∀ (url : String) (r : DlResult) (e : DlError),
      (url, r) ∈ mainLoopV2 w links → r.err = some e →
      errPath e = mainBaseURL ++ urlToFilename url ∨
      errPath e = joinPath mainOutDir (urlToFilename url)) ∧
    (∀ (f : String) (r : DlResult) (e : DlError),
      (f, r) ∈ mainLoopV1 w links → r.err = some e →
      errPath e = mainBaseURL ++ f ∨ errPath e = mainOutDir ∨
      errPath e = joinPath mainOutDir f) := by
  intro w links
  refine ⟨mainLoopV2_fst w links, mainLoopV1_fst w links, ?_, ?_⟩
  · intro url r e hmem herr
    rw [mainLoopV2_mem w links url r hmem] at herr
    exact dl_err_path_v2 _ _ _ _ _ herr
  · intro f r e hmem herr
    rw [mainLoopV1_mem w links f r hmem] at herr
    exact dl_err_path_v1 _ _ _ _ _ herr

/-- C8 witness: one link whose GET fails is reported with its URL and the
loop output still lists it. -/
theorem download_loop_continues_witness :
    (mainLoopV2 (fun _ => wHttpFail) ["a.pdf"]).map Prod.fst = ["a.pdf"] ∧
    (errPath (DlError.downloadFailed (mainBaseURL ++ urlToFilename "a.pdf")) =
      mainBaseURL ++ urlToFilename "a.pdf" ∨
     errPath (DlError.downloadFailed (mainBaseURL ++ urlToFilename "a.pdf")) =
      joinPath mainOutDir (urlToFilename "a.pdf")) := by
  have h := download_loop_continues_after_failure (fun _ => wHttpFail) ["a.pdf"]
  refine ⟨h.1, ?_⟩
  exact h.2.2.1 "a.pdf"
    ⟨some (DlError.downloadFailed (mainBaseURL ++ urlToFilename "a.pdf")), true, false⟩
    (DlError.downloadFailed (mainBaseURL ++ urlToFilename "a.pdf"))
    (by decide) rfl

/-- C9: for every input, the sanitized name is an idempotent-core stem of
characters in [a-z0-9_] followed by exactly ".pdf"; it contains no slash
and no "..", joining it onto Assets/ is plain concatenation inside the
directory, and it always passes the variant 2 extension allow-list. -/
theorem sanitized_name_always_safe : ∀ s : String,
    goodList (sanCoreList s.data) = true ∧
    (urlToFilename s).data = sanCoreList s.data ++ ('.' :: 'p' :: 'd' :: 'f' :: []) ∧
    (urlToFilename s).data.contains '/' = false ∧
    hasDotDot (urlToFilename s).data = false ∧
    extAllowedV2 (urlToFilename s) = true ∧
    joinPath mainOutDir (urlToFilename s) = mainOutDir ++ urlToFilename s := by
  intro s
  refine ⟨sanCore_good s.data, urlToFilename_data s, result_no_slash s,
    result_no_dotdot s, extAllowedV2_result s, ?_⟩
  simp [joinPath, show trailingSlash mainOutDir = true from by decide]

/-- C10: a filesystem write (MkdirAll in variant 1, os.Create in both) is
attempted iff the extension gate passes, no regular file already exists,
and http.Get succeeded — so every no-op and every GET failure leaves the
filesystem untouched. -/
theorem no_write_unless_get_succeeds : ∀ (b n d : String) (w : DlWorld),
    ((downloadFileV1 b n d w).fsWriteAttempted = true ↔
      (extAllowedV1 n = true ∧ fileExists w.stat = false ∧ w.httpGetErr = false)) ∧
    ((downloadFileV2 b n d w).fsWriteAttempted = true ↔
      (extAllowedV2 n = true ∧ fileExists w.stat = false ∧ w.httpGetErr = false)) := by
  intro b n d w
  obtain ⟨st, hget, hmk, hcr, hcp⟩ := w
  by_cases h1 : extAllowedV1 n = true <;> by_cases h2 : extAllowedV2 n = true <;>
    by_cases hf : fileExists st = true <;>
    cases hget <;> cases hmk <;> cases hcr <;> cases hcp <;>
      simp_all [downloadFileV1, downloadFileV2]

